import Mathlib

/-!
Verification of the guard-scoped concurrent set layer (flurry HashSet).

The set layer itself is translated from src/set.rs.  The backing associative
store (the flurry HashMap) is not part of the provided sources, so it is
modelled from the specification of its contract (section 6 of the spec):
a key to sentinel-value mapping with borrow-polymorphic point lookup,
insert-or-leave-if-present, remove-if-present, predicate based bulk removal,
sized iteration over live keys, and an equality helper with the guarded_eq
semantics.  Guards only govern memory reclamation and have no effect on the
single-threaded functional behaviour studied here, so they are erased by the
shallow embedding.

Element equality in the store is the Rust Ord/Hash derived equality, which
identifies values that need not be identical; it is embedded as a BEq
instance together with the EqvLaws class below, which captures the
hash/order agreement precondition of the spec (section 3).
-/

namespace Flurry

/-- EqvLaws states that the boolean equality test of a BEq instance is an
equivalence relation.  This is the embedding of the documented hash/order
agreement precondition: elements equal under the total order are
indistinguishable under the order relation.  Unlike LawfulBEq it does not
force equivalent values to be identical, so a stored element and an equal
query remain distinguishable, as in Rust. -/
class EqvLaws (α : Type) [BEq α] : Prop where
  refl : ∀ a : α, (a == a) = true
  symm : ∀ a b : α, (a == b) = true → (b == a) = true
  trans : ∀ a b c : α, (a == b) = true → (b == c) = true → (a == c) = true

instance (α : Type) [BEq α] [LawfulBEq α] : EqvLaws α where
  refl a := beq_iff_eq.2 rfl
  symm a b h := by rw [beq_iff_eq] at h; subst h; exact beq_iff_eq.2 rfl
  trans a b c h1 h2 := by rw [beq_iff_eq] at h1 h2; subst h1; subst h2; exact beq_iff_eq.2 rfl

/-- Modelled from the spec: the backing associative store (the flurry
HashMap, whose source is not among the provided files), per the external
interface table of section 6: a concurrent key to sentinel-value mapping.
Entries are kept in insertion order; the bucket layout, hashing and resize
machinery are out of scope of the spec and do not affect the contract. -/
structure FlurryMap (K : Type) (V : Type) where
  entries : List (K × V)

variable {K V : Type}

/-- Modelled from the spec: construction of an empty store
(with_hasher / with_capacity_and_hasher; hasher and capacity are
behaviourally irrelevant at this contract boundary). -/
def FlurryMap.empty : FlurryMap K V := ⟨[]⟩

/-- Modelled from the spec: advisory size, the number of live entries. -/
def FlurryMap.len (m : FlurryMap K V) : Nat := m.entries.length

/-- Modelled from the spec: borrow-polymorphic membership (contains_key). -/
def FlurryMap.contains_key [BEq K] (m : FlurryMap K V) (q : K) : Bool :=
  m.entries.any (fun e => e.1 == q)

/-- Modelled from the spec: borrow-polymorphic lookup (get_key_value),
returning the stored key and value for the entry equal to the query. -/
def FlurryMap.get_key_value [BEq K] (m : FlurryMap K V) (q : K) : Option (K × V) :=
  m.entries.find? (fun e => e.1 == q)

/-- Modelled from the spec: insert-or-leave-if-present; returns the prior
value if one existed, in which case the stored entry is not replaced. -/
def FlurryMap.insert [BEq K] (m : FlurryMap K V) (k : K) (v : V) :
    FlurryMap K V × Option V :=
  match m.entries.find? (fun e => e.1 == k) with
  | some e => (m, some e.2)
  | none => (⟨m.entries ++ [(k, v)]⟩, none)

/-- Modelled from the spec: remove-if-present, reporting the removed value. -/
def FlurryMap.remove [BEq K] (m : FlurryMap K V) (q : K) :
    FlurryMap K V × Option V :=
  match m.entries.find? (fun e => e.1 == q) with
  | some e => (⟨m.entries.filter (fun e2 => !(e2.1 == q))⟩, some e.2)
  | none => (m, none)

/-- Modelled from the spec: remove-if-present, reporting the removed entry. -/
def FlurryMap.remove_entry [BEq K] (m : FlurryMap K V) (q : K) :
    FlurryMap K V × Option (K × V) :=
  match m.entries.find? (fun e => e.1 == q) with
  | some e => (⟨m.entries.filter (fun e2 => !(e2.1 == q))⟩, some e)
  | none => (m, none)

/-- Modelled from the spec: predicate based bulk conditional removal
(retain); keeps exactly the entries on which the predicate holds. -/
def FlurryMap.retain (m : FlurryMap K V) (p : K → V → Bool) : FlurryMap K V :=
  ⟨m.entries.filter (fun e => p e.1 e.2)⟩

/-- Modelled from the spec: bulk-remove-all (clear). -/
def FlurryMap.clear (_m : FlurryMap K V) : FlurryMap K V := ⟨[]⟩

/-- Modelled from the spec: capacity hint; no observable effect on contents. -/
def FlurryMap.reserve (m : FlurryMap K V) (_additional : Nat) : FlurryMap K V := m

/-- Modelled from the spec: weakly consistent live-key enumeration (keys). -/
def FlurryMap.keys (m : FlurryMap K V) : List K := m.entries.map Prod.fst

/-- Modelled from the spec: the equality helper with guarded_eq semantics
(section 4.3): if the lengths differ return false immediately, otherwise
perform a full subset check of the first operand in the second. -/
def FlurryMap.guarded_eq [BEq K] (a b : FlurryMap K V) : Bool :=
  if a.len != b.len then false
  else a.entries.all (fun e => b.contains_key e.1)

/-- Modelled from the spec: bulk construction, building a fresh store by
inserting each item of the sequence in order (FromIterator / collect). -/
def FlurryMap.ofList [BEq K] (l : List (K × V)) : FlurryMap K V :=
  l.foldl (fun m kv => (m.insert kv.1 kv.2).1) FlurryMap.empty

/-- Modelled from the spec: extending an existing store by inserting each
item of the sequence in order (the Extend implementation of the map). -/
def FlurryMap.extendWith [BEq K] (m : FlurryMap K V) (l : List (K × V)) :
    FlurryMap K V :=
  l.foldl (fun m kv => (m.insert kv.1 kv.2).1) m

/-- Well-formedness of a store: no two entries have equal keys.  Every store
reachable from empty through the modelled operations satisfies it; it is the
map invariant the spec assumes of the backing store. -/
def FlurryMap.wf [BEq K] (m : FlurryMap K V) : Prop :=
  m.entries.Pairwise (fun e1 e2 => (e1.1 == e2.1) = false)

/-- HashSet, from src/set.rs line 43: a concurrent hash set implemented as a
HashMap where the value is the unit sentinel. -/
structure HashSet (T : Type) where
  map : FlurryMap T Unit

variable {T : Type}

/-- HashSet::new, src/set.rs line 59: an empty set. -/
def HashSet.new : HashSet T := ⟨FlurryMap.empty⟩

/-- HashSet::len, src/set.rs line 172. -/
def HashSet.len (s : HashSet T) : Nat := s.map.len

/-- HashSet::is_empty, src/set.rs line 188. -/
def HashSet.is_empty (s : HashSet T) : Bool := s.len == 0

/-- HashSet::iter, src/set.rs line 212: the elements, as the keys of the
backing map, in store-defined order. -/
def HashSet.iter (s : HashSet T) : List T := s.map.keys

/-- HashSet::contains, src/set.rs line 244. -/
def HashSet.contains [BEq T] (s : HashSet T) (q : T) : Bool :=
  s.map.contains_key q

/-- HashSet::get, src/set.rs line 271. -/
def HashSet.get [BEq T] (s : HashSet T) (q : T) : Option T :=
  (s.map.get_key_value q).map Prod.fst

/-- HashSet::insert, src/set.rs line 408: insert the unit sentinel under the
value; report true exactly when no prior entry existed. -/
def HashSet.insert [BEq T] (s : HashSet T) (v : T) : HashSet T × Bool :=
  let r := s.map.insert v ()
  (⟨r.1⟩, r.2.isNone)

/-- HashSet::remove, src/set.rs line 439: report true exactly when an entry
was removed. -/
def HashSet.remove [BEq T] (s : HashSet T) (q : T) : HashSet T × Bool :=
  let r := s.map.remove q
  (⟨r.1⟩, r.2.isSome)

/-- HashSet::take, src/set.rs line 467. -/
def HashSet.take [BEq T] (s : HashSet T) (q : T) : HashSet T × Option T :=
  let r := s.map.remove_entry q
  (⟨r.1⟩, r.2.map Prod.fst)

/-- HashSet::retain, src/set.rs line 492: keep exactly the elements on which
the predicate holds. -/
def HashSet.retain (s : HashSet T) (f : T → Bool) : HashSet T :=
  ⟨s.map.retain (fun v _ => f v)⟩

/-- HashSet::clear, src/set.rs line 517. -/
def HashSet.clear (s : HashSet T) : HashSet T := ⟨s.map.clear⟩

/-- Loop body of HashSet::is_disjoint, src/set.rs lines 305 to 311: walk the
iterated elements of the first set, returning false on the first one the
other set contains. -/
def HashSet.disjoint_loop [BEq T] (other : HashSet T) : List T → Bool
  | [] => true
  | v :: rest => if other.contains v then false else HashSet.disjoint_loop other rest

/-- HashSet::is_disjoint, src/set.rs line 299. -/
def HashSet.is_disjoint [BEq T] (a other : HashSet T) : Bool :=
  HashSet.disjoint_loop other a.iter

/-- Loop body of HashSet::is_subset, src/set.rs lines 337 to 343: walk the
iterated elements of the first set, returning false on the first one the
other set does not contain. -/
def HashSet.subset_loop [BEq T] (other : HashSet T) : List T → Bool
  | [] => true
  | v :: rest => if !(other.contains v) then false else HashSet.subset_loop other rest

/-- HashSet::is_subset, src/set.rs line 331. -/
def HashSet.is_subset [BEq T] (a other : HashSet T) : Bool :=
  HashSet.subset_loop other a.iter

/-- HashSet::is_superset, src/set.rs line 366: delegates to is_subset with
the operands and their guards swapped. -/
def HashSet.is_superset [BEq T] (a other : HashSet T) : Bool :=
  other.is_subset a

/-- HashSet::guarded_eq, src/set.rs line 375: delegates to the guarded_eq
helper of the backing map. -/
def HashSet.guarded_eq [BEq T] (a other : HashSet T) : Bool :=
  a.map.guarded_eq other.map

/-- PartialEq for HashSet, src/set.rs line 535: equality of the backing
maps, which the store exposes with guarded_eq semantics under fresh guards. -/
def HashSet.set_eq [BEq T] (a other : HashSet T) : Bool :=
  a.map.guarded_eq other.map

/-- FromIterator for HashSet, src/set.rs line 582: collect the sequence,
pairing every element with the unit sentinel, into a fresh map. -/
def HashSet.from_iter [BEq T] (l : List T) : HashSet T :=
  ⟨FlurryMap.ofList (l.map (fun v => (v, ())))⟩

/-- Extend for HashSet, src/set.rs line 562: extend the backing map with the
sequence, pairing every element with the unit sentinel. -/
def HashSet.extend [BEq T] (s : HashSet T) (l : List T) : HashSet T :=
  ⟨s.map.extendWith (l.map (fun v => (v, ())))⟩

/-- Reference implementation written from the words of the spec, for the
refinement claim about bulk construction: repeated insert calls for the
items of the sequence in order, under an internally-managed guard. -/
def HashSet.insertAll [BEq T] (s : HashSet T) (l : List T) : HashSet T :=
  l.foldl (fun s v => (s.insert v).1) s

/-- Well-formedness of a set: its backing map is well-formed. -/
def HashSet.wf [BEq T] (s : HashSet T) : Prop := s.map.wf

/-! Helper lemmas shared by the claim theorems. -/

theorem list_any_eq_isSome_find? {α : Type} (l : List α) (p : α → Bool) :
    l.any p = (l.find? p).isSome := by
  cases hf : l.find? p with
  | none =>
    rw [List.find?_eq_none] at hf
    simp only [Option.isSome_none, Bool.eq_false_iff]
    intro hany
    obtain ⟨x, hx, hpx⟩ := List.any_eq_true.1 hany
    exact hf x hx hpx
  | some a =>
    simp only [Option.isSome_some]
    exact List.any_eq_true.2 ⟨a, List.mem_of_find?_eq_some hf, List.find?_some hf⟩

theorem contains_eq_isSome [BEq T] (s : HashSet T) (q : T) :
    s.contains q = (s.map.entries.find? (fun e => e.1 == q)).isSome :=
  list_any_eq_isSome_find? _ _

theorem contains_iff_exists [BEq T] (s : HashSet T) (q : T) :
    s.contains q = true ↔ ∃ x ∈ s.iter, (x == q) = true := by
  unfold HashSet.contains FlurryMap.contains_key HashSet.iter FlurryMap.keys
  rw [List.any_eq_true]
  constructor
  · rintro ⟨e, he, hbe⟩
    exact ⟨e.1, List.mem_map.2 ⟨e, he, rfl⟩, hbe⟩
  · rintro ⟨x, hx, hbx⟩
    obtain ⟨e, he, rfl⟩ := List.mem_map.1 hx
    exact ⟨e, he, hbx⟩

theorem contains_eq_false_iff [BEq T] (s : HashSet T) (q : T) :
    s.contains q = false ↔ ∀ x ∈ s.iter, (x == q) = false := by
  constructor
  · intro h x hx
    by_contra hne
    rw [Bool.not_eq_false] at hne
    have htr := (contains_iff_exists s q).2 ⟨x, hx, hne⟩
    rw [h] at htr
    exact Bool.false_ne_true htr
  · intro h
    by_contra hne
    rw [Bool.not_eq_false] at hne
    obtain ⟨x, hx, hbx⟩ := (contains_iff_exists s q).1 hne
    rw [h x hx] at hbx
    exact Bool.false_ne_true hbx

theorem insert_eq [BEq T] (s : HashSet T) (v : T) :
    s.insert v =
      if s.contains v then (s, false)
      else (⟨⟨s.map.entries ++ [(v, ())]⟩⟩, true) := by
  unfold HashSet.insert FlurryMap.insert
  rw [contains_eq_isSome]
  cases hf : s.map.entries.find? (fun e => e.1 == v) with
  | none => rfl
  | some e => rfl

theorem remove_eq [BEq T] (s : HashSet T) (q : T) :
    s.remove q =
      if s.contains q then (⟨⟨s.map.entries.filter (fun e => !(e.1 == q))⟩⟩, true)
      else (s, false) := by
  unfold HashSet.remove FlurryMap.remove
  rw [contains_eq_isSome]
  cases hf : s.map.entries.find? (fun e => e.1 == q) with
  | none => rfl
  | some e => rfl

theorem iter_insert_of_not_contains [BEq T] (s : HashSet T) (v : T)
    (h : s.contains v = false) :
    (s.insert v).1.iter = s.iter ++ [v] := by
  rw [insert_eq, h]
  simp [HashSet.iter, FlurryMap.keys]

theorem subset_loop_eq_true [BEq T] (b : HashSet T) (l : List T) :
    HashSet.subset_loop b l = true ↔ ∀ x ∈ l, b.contains x = true := by
  induction l with
  | nil => simp [HashSet.subset_loop]
  | cons v rest ih =>
    unfold HashSet.subset_loop
    cases hc : b.contains v with
    | false => simp [hc]
    | true => simp [hc, ih]

theorem disjoint_loop_eq_true [BEq T] (b : HashSet T) (l : List T) :
    HashSet.disjoint_loop b l = true ↔ ∀ x ∈ l, b.contains x = false := by
  induction l with
  | nil => simp [HashSet.disjoint_loop]
  | cons v rest ih =>
    unfold HashSet.disjoint_loop
    cases hc : b.contains v with
    | true => simp [hc]
    | false => simp [hc, ih]

theorem contains_insert_self [BEq T] [EqvLaws T] (s : HashSet T) (x : T) :
    (s.insert x).1.contains x = true := by
  cases hc : s.contains x with
  | true =>
    rw [insert_eq, hc]
    exact hc
  | false =>
    apply (contains_iff_exists _ _).2
    refine ⟨x, ?_, EqvLaws.refl x⟩
    rw [iter_insert_of_not_contains s x hc]
    simp

theorem contains_of_filter_out [BEq T] (entries : List (T × Unit)) (q : T) :
    (HashSet.mk ⟨entries.filter (fun e => !(e.1 == q))⟩).contains q = false := by
  rw [Bool.eq_false_iff]
  intro hc
  simp only [HashSet.contains, FlurryMap.contains_key] at hc
  obtain ⟨e, he, hbe⟩ := List.any_eq_true.1 hc
  have hne := (List.mem_filter.1 he).2
  rw [hbe] at hne
  simp at hne

/-- C1: insert returns true iff no equal element was present before the call;
when an equal element was present, insert returns false and the stored
contents, in particular the stored element, are unchanged; and starting from
a set with no element equal to x, two sequential inserts of x return true
then false and leave exactly one element equal to x in the set. -/
theorem insert_if_absent [BEq T] [EqvLaws T] (s : HashSet T) (x : T) :
    ((s.insert x).2 = !(s.contains x))
    ∧ (s.contains x = true → (s.insert x).1 = s)
    ∧ (s.contains x = false →
        (s.insert x).2 = true
        ∧ ((s.insert x).1.insert x).2 = false
        ∧ ((s.insert x).1.insert x).1.iter.countP (fun e => (e == x)) = 1) := by
  refine ⟨?_, ?_, ?_⟩
  · rw [insert_eq]
    cases hc : s.contains x <;> simp [hc]
  · intro hc
    rw [insert_eq, hc, if_pos rfl]
  · intro hc
    have h1 : (s.insert x).1.contains x = true := contains_insert_self s x
    refine ⟨by rw [insert_eq, hc, if_neg Bool.false_ne_true], ?_, ?_⟩
    · rw [insert_eq, h1, if_pos rfl]
    · have h2 : ((s.insert x).1.insert x).1 = (s.insert x).1 := by
        rw [insert_eq, h1, if_pos rfl]
      rw [h2, iter_insert_of_not_contains s x hc, List.countP_append]
      have hz : s.iter.countP (fun e => (e == x)) = 0 :=
        List.countP_eq_zero.2 fun a ha => by
          rw [(contains_eq_false_iff s x).1 hc a ha]
          exact Bool.false_ne_true
      rw [hz]
      simp [List.countP_cons, EqvLaws.refl x]

/-- Witness for C1 at a concrete input: the empty set of naturals and the
element five. -/
theorem insert_if_absent_witness :
    (((HashSet.new : HashSet Nat).insert 5).2 = true
     ∧ (((HashSet.new : HashSet Nat).insert 5).1.insert 5).2 = false
     ∧ (((HashSet.new : HashSet Nat).insert 5).1.insert 5).1.iter.countP
         (fun e => (e == 5)) = 1) :=
  (insert_if_absent (HashSet.new : HashSet Nat) 5).2.2 (by decide)

/-- C2: in a single-threaded execution, remove of x directly after insert of
x returns true and a subsequent contains of x returns false; and remove of x
when no element equal to x is present returns false and leaves the set
unchanged. -/
theorem remove_correct [BEq T] [EqvLaws T] (s : HashSet T) (x : T) :
    (((s.insert x).1.remove x).2 = true)
    ∧ (((s.insert x).1.remove x).1.contains x = false)
    ∧ (s.contains x = false → s.remove x = (s, false)) := by
  have h1 : (s.insert x).1.contains x = true := contains_insert_self s x
  refine ⟨?_, ?_, ?_⟩
  · rw [remove_eq, h1, if_pos rfl]
  · rw [remove_eq, h1, if_pos rfl]
    exact contains_of_filter_out _ x
  · intro hc
    rw [remove_eq, hc, if_neg Bool.false_ne_true]

/-- Witness for C2 at a concrete input: the empty set of naturals and the
element two. -/
theorem remove_correct_witness :
    ((((HashSet.new : HashSet Nat).insert 2).1.remove 2).2 = true)
    ∧ ((((HashSet.new : HashSet Nat).insert 2).1.remove 2).1.contains 2 = false)
    ∧ ((HashSet.new : HashSet Nat).remove 2 = ((HashSet.new : HashSet Nat), false)) :=
  ⟨(remove_correct (HashSet.new : HashSet Nat) 2).1,
   (remove_correct (HashSet.new : HashSet Nat) 2).2.1,
   (remove_correct (HashSet.new : HashSet Nat) 2).2.2 (by decide)⟩

/-- C3: is_subset iterates the elements of the first set under its guard,
probing the second set for each, returning false upon the first element
absent; it returns true exactly when every iterated element of the first set
is contained in the second. -/
theorem is_subset_correct [BEq T] (a b : HashSet T) :
    a.is_subset b = true ↔ ∀ x ∈ a.iter, b.contains x = true :=
  subset_loop_eq_true b a.iter

/-- Witness for C3 at concrete inputs: the sets of naturals one, two and
one, two, three. -/
theorem is_subset_correct_witness :
    ((HashSet.from_iter [1, 2] : HashSet Nat).is_subset
        (HashSet.from_iter [1, 2, 3]) = true
      ↔ ∀ x ∈ (HashSet.from_iter [1, 2] : HashSet Nat).iter,
          (HashSet.from_iter [1, 2, 3] : HashSet Nat).contains x = true) :=
  is_subset_correct (HashSet.from_iter [1, 2]) (HashSet.from_iter [1, 2, 3])

/-- C4: is_disjoint iterates the elements of the first set under its guard,
probing the second set for each; it returns false on the first element
contained in both and true when the iteration is exhausted without a hit,
which single-threadedly means exactly that no value is contained in both
sets. -/
theorem is_disjoint_correct [BEq T] [EqvLaws T] (a b : HashSet T) :
    (a.is_disjoint b = true ↔ ∀ x ∈ a.iter, b.contains x = false)
    ∧ (a.is_disjoint b = true ↔
        ∀ x, ¬(a.contains x = true ∧ b.contains x = true)) := by
  refine ⟨disjoint_loop_eq_true b a.iter,
    Iff.trans (disjoint_loop_eq_true b a.iter) ⟨?_, ?_⟩⟩
  · rintro h x ⟨hax, hbx⟩
    obtain ⟨ea, hea, hba⟩ := (contains_iff_exists a x).1 hax
    obtain ⟨eb, heb, hbb⟩ := (contains_iff_exists b x).1 hbx
    have h1 : (eb == ea) = true := EqvLaws.trans _ _ _ hbb (EqvLaws.symm _ _ hba)
    have h2 : b.contains ea = true := (contains_iff_exists b ea).2 ⟨eb, heb, h1⟩
    rw [h ea hea] at h2
    exact Bool.false_ne_true h2
  · intro h x hx
    rw [Bool.eq_false_iff]
    intro hbx
    exact h x ⟨(contains_iff_exists a x).2 ⟨x, hx, EqvLaws.refl x⟩, hbx⟩

/-- Witness for C4 at concrete inputs: the sets of naturals one, two, three
and four, five. -/
theorem is_disjoint_correct_witness :
    ((HashSet.from_iter [1, 2, 3] : HashSet Nat).is_disjoint
        (HashSet.from_iter [4, 5]) = true
      ↔ ∀ x ∈ (HashSet.from_iter [1, 2, 3] : HashSet Nat).iter,
          (HashSet.from_iter [4, 5] : HashSet Nat).contains x = false) :=
  (is_disjoint_correct (HashSet.from_iter [1, 2, 3]) (HashSet.from_iter [4, 5])).1

/-- C7: is_superset returns exactly the result of is_subset with the two
operands, and their guards, swapped. -/
theorem is_superset_swap [BEq T] (a b : HashSet T) :
    a.is_superset b = b.is_subset a := rfl

/-- C10: contains returns true exactly when get returns some result, and any
stored element returned by get compares equal to the query. -/
theorem contains_get_agree [BEq T] (s : HashSet T) (q : T) :
    (s.contains q = (s.get q).isSome)
    ∧ (∀ r, s.get q = some r → (r == q) = true) := by
  constructor
  · rw [contains_eq_isSome]
    unfold HashSet.get FlurryMap.get_key_value
    cases s.map.entries.find? (fun e => e.1 == q) <;> rfl
  · intro r hr
    unfold HashSet.get FlurryMap.get_key_value at hr
    rw [Option.map_eq_some'] at hr
    obtain ⟨e, he, hr⟩ := hr
    have := List.find?_some he
    rw [← hr]
    exact this

/-- Witness for C10 at a concrete input: the singleton set of the natural
number two, queried with two. -/
theorem contains_get_agree_witness :
    ((HashSet.from_iter [2] : HashSet Nat).contains 2
        = ((HashSet.from_iter [2] : HashSet Nat).get 2).isSome)
    ∧ (((2 : Nat) == 2) = true) :=
  ⟨(contains_get_agree (HashSet.from_iter [2] : HashSet Nat) 2).1,
   (contains_get_agree (HashSet.from_iter [2] : HashSet Nat) 2).2 2 (by decide)⟩

/-- C6: retain keeps exactly the elements on which the predicate holds, and
removes exactly those on which it is false: membership in the retained set
is membership in the original set together with the predicate holding; and
concretely, retaining the even elements of the set built from zero through
seven leaves exactly zero, two, four, six, with length four. -/
theorem retain_correct :
    (∀ (α : Type) (s : HashSet α) (f : α → Bool) (x : α),
        x ∈ (s.retain f).iter ↔ (x ∈ s.iter ∧ f x = true))
    ∧ ((HashSet.from_iter [0, 1, 2, 3, 4, 5, 6, 7] : HashSet Nat).retain
        (fun e => e % 2 == 0)).iter = [0, 2, 4, 6]
    ∧ ((HashSet.from_iter [0, 1, 2, 3, 4, 5, 6, 7] : HashSet Nat).retain
        (fun e => e % 2 == 0)).len = 4 := by
  refine ⟨?_, by decide, by decide⟩
  intro α s f x
  unfold HashSet.retain FlurryMap.retain HashSet.iter FlurryMap.keys
  constructor
  · intro hx
    obtain ⟨e, he, rfl⟩ := List.mem_map.1 hx
    have hef := List.mem_filter.1 he
    exact ⟨List.mem_map.2 ⟨e, hef.1, rfl⟩, hef.2⟩
  · rintro ⟨hx, hfx⟩
    obtain ⟨e, he, rfl⟩ := List.mem_map.1 hx
    exact List.mem_map.2 ⟨e, List.mem_filter.2 ⟨he, hfx⟩, rfl⟩

/-- Witness for C6 at a concrete input: membership of two in the retained
even elements of the set zero through three. -/
theorem retain_correct_witness :
    (2 ∈ ((HashSet.from_iter [0, 1, 2, 3] : HashSet Nat).retain
        (fun e => e % 2 == 0)).iter
      ↔ (2 ∈ (HashSet.from_iter [0, 1, 2, 3] : HashSet Nat).iter
         ∧ ((2 : Nat) % 2 == 0) = true)) :=
  retain_correct.1 Nat (HashSet.from_iter [0, 1, 2, 3]) (fun e => e % 2 == 0) 2

theorem disjoint_swap_aux [BEq T] [EqvLaws T] (a b : HashSet T)
    (h : ∀ x ∈ a.iter, b.contains x = false) :
    ∀ y ∈ b.iter, a.contains y = false := by
  intro y hy
  rw [Bool.eq_false_iff]
  intro hay
  obtain ⟨ea, hea, hba⟩ := (contains_iff_exists a y).1 hay
  have hb : b.contains ea = true :=
    (contains_iff_exists b ea).2 ⟨y, hy, EqvLaws.symm _ _ hba⟩
  rw [h ea hea] at hb
  exact Bool.false_ne_true hb

/-- C8: in a single-threaded execution is_disjoint is commutative, even
though the algorithm iterates its first operand and probes its second. -/
theorem is_disjoint_comm [BEq T] [EqvLaws T] (a b : HashSet T) :
    a.is_disjoint b = b.is_disjoint a := by
  by_cases hd : b.is_disjoint a = true
  · rw [hd]
    exact (disjoint_loop_eq_true b a.iter).2
      (disjoint_swap_aux b a ((disjoint_loop_eq_true a b.iter).1 hd))
  · rw [Bool.not_eq_true] at hd
    rw [hd, Bool.eq_false_iff]
    intro hab
    have hba : b.is_disjoint a = true :=
      (disjoint_loop_eq_true a b.iter).2
        (disjoint_swap_aux a b ((disjoint_loop_eq_true b a.iter).1 hab))
    rw [hd] at hba
    exact Bool.false_ne_true hba

/-- Witness for C8 at concrete inputs: the overlapping sets of naturals one,
two and two, three. -/
theorem is_disjoint_comm_witness :
    (HashSet.from_iter [1, 2] : HashSet Nat).is_disjoint (HashSet.from_iter [2, 3])
      = (HashSet.from_iter [2, 3] : HashSet Nat).is_disjoint (HashSet.from_iter [1, 2]) :=
  is_disjoint_comm (HashSet.from_iter [1, 2]) (HashSet.from_iter [2, 3])

theorem match_le_and_surj {α : Type} [BEq α] [EqvLaws α] (la lb : List α)
    (h1 : la.Pairwise (fun x y => (x == y) = false))
    (h2 : ∀ x ∈ la, ∃ y ∈ lb, (x == y) = true) :
    la.length ≤ lb.length
    ∧ (la.length = lb.length → ∀ y ∈ lb, ∃ x ∈ la, (x == y) = true) := by
  have hidx : ∀ j : Fin la.length, ∃ i : Fin lb.length,
      (la.get j == lb.get i) = true := by
    intro j
    obtain ⟨y, hy, hby⟩ := h2 (la.get j) (la.get_mem j.1 j.2)
    obtain ⟨i, hi⟩ := List.mem_iff_get.1 hy
    exact ⟨i, by rw [hi]; exact hby⟩
  choose f hf using hidx
  have hinj : Function.Injective f := by
    intro j1 j2 hf12
    by_contra hne
    have hb1 := hf j1
    have hb2 := hf j2
    rw [hf12] at hb1
    have h12 : (la.get j1 == la.get j2) = true :=
      EqvLaws.trans _ _ _ hb1 (EqvLaws.symm _ _ hb2)
    rcases lt_or_gt_of_ne hne with h | h
    · have hpw := List.pairwise_iff_get.1 h1 j1 j2 h
      rw [hpw] at h12
      exact Bool.false_ne_true h12
    · have hpw := List.pairwise_iff_get.1 h1 j2 j1 h
      have h21 := EqvLaws.symm _ _ h12
      rw [hpw] at h21
      exact Bool.false_ne_true h21
  constructor
  · have := Fintype.card_le_of_injective f hinj
    simpa using this
  · intro hlen y hy
    have hbij : Function.Bijective f :=
      (Fintype.bijective_iff_injective_and_card f).2 ⟨hinj, by simp [hlen]⟩
    obtain ⟨i, hi⟩ := List.mem_iff_get.1 hy
    obtain ⟨j, hj⟩ := hbij.2 i
    refine ⟨la.get j, la.get_mem j.1 j.2, ?_⟩
    have hb := hf j
    rw [hj, hi] at hb
    exact hb

theorem iter_pairwise_of_wf [BEq T] (a : HashSet T) (ha : a.wf) :
    a.iter.Pairwise (fun x y => (x == y) = false) := by
  unfold HashSet.iter FlurryMap.keys
  exact List.pairwise_map.2 ha

theorem subset_match [BEq T] [EqvLaws T] (a b : HashSet T)
    (h : a.is_subset b = true) :
    ∀ x ∈ a.iter, ∃ y ∈ b.iter, (x == y) = true := by
  intro x hx
  obtain ⟨y, hy, hby⟩ :=
    (contains_iff_exists b x).1 ((subset_loop_eq_true b a.iter).1 h x hx)
  exact ⟨y, hy, EqvLaws.symm _ _ hby⟩

theorem match_subset [BEq T] [EqvLaws T] (a b : HashSet T)
    (h : ∀ x ∈ a.iter, ∃ y ∈ b.iter, (x == y) = true) :
    a.is_subset b = true := by
  apply (subset_loop_eq_true b a.iter).2
  intro x hx
  obtain ⟨y, hy, hby⟩ := h x hx
  exact (contains_iff_exists b x).2 ⟨y, hy, EqvLaws.symm _ _ hby⟩

theorem iter_length_eq_len (a : HashSet T) : a.iter.length = a.len := by
  unfold HashSet.iter FlurryMap.keys HashSet.len FlurryMap.len
  exact List.length_map _ _

theorem all_keys_eq_subset [BEq T] (a b : HashSet T) :
    a.map.entries.all (fun e => b.map.contains_key e.1) = a.is_subset b := by
  rw [Bool.eq_iff_iff, List.all_eq_true]
  have hloop := subset_loop_eq_true b a.iter
  constructor
  · intro h
    apply hloop.2
    intro x hx
    obtain ⟨e, he, rfl⟩ := List.mem_map.1 hx
    exact h e he
  · intro h e he
    exact hloop.1 h e.1 (List.mem_map.2 ⟨e, he, rfl⟩)

/-- C5: guarded_eq returns false immediately when the lengths differ, and on
well-formed sets it agrees with the conjunction of the two subset checks: it
is true exactly when each set is a subset of the other. -/
theorem guarded_eq_correct [BEq T] [EqvLaws T] (a b : HashSet T)
    (ha : a.wf) (hb : b.wf) :
    (a.len ≠ b.len → a.guarded_eq b = false)
    ∧ (a.guarded_eq b = (a.is_subset b && b.is_subset a)) := by
  have hpa := iter_pairwise_of_wf a ha
  have hpb := iter_pairwise_of_wf b hb
  have hGE : a.guarded_eq b =
      (if a.len != b.len then false
       else a.map.entries.all (fun e => b.map.contains_key e.1)) := rfl
  constructor
  · intro hlen
    rw [hGE, if_pos (bne_iff_ne.2 hlen)]
  · by_cases hlen : a.len = b.len
    · rw [hGE, if_neg (by rw [bne_iff_ne]; exact fun hne => hne hlen),
        all_keys_eq_subset]
      cases hab : a.is_subset b with
      | false => simp
      | true =>
        have hsurj := (match_le_and_surj a.iter b.iter hpa (subset_match a b hab)).2
          (by rw [iter_length_eq_len, iter_length_eq_len, hlen])
        have hba : b.is_subset a = true := by
          apply match_subset b a
          intro y hy
          obtain ⟨x, hx, hxy⟩ := hsurj y hy
          exact ⟨x, hx, EqvLaws.symm _ _ hxy⟩
        rw [hba]
        simp
    · rw [hGE, if_pos (bne_iff_ne.2 hlen)]
      cases hab : a.is_subset b with
      | false => simp
      | true =>
        cases hba : b.is_subset a with
        | false => simp
        | true =>
          exfalso
          apply hlen
          have hle1 := (match_le_and_surj a.iter b.iter hpa (subset_match a b hab)).1
          have hle2 := (match_le_and_surj b.iter a.iter hpb (subset_match b a hba)).1
          rw [iter_length_eq_len, iter_length_eq_len] at hle1 hle2
          exact Nat.le_antisymm hle1 hle2

/-- Witness for C5 at concrete inputs: the equal sets one, two and two, one,
and the unequal-length pair one, two and three. -/
theorem guarded_eq_correct_witness :
    ((HashSet.from_iter [1, 2] : HashSet Nat).guarded_eq (HashSet.from_iter [3]) = false)
    ∧ ((HashSet.from_iter [1, 2] : HashSet Nat).guarded_eq (HashSet.from_iter [2, 1])
        = ((HashSet.from_iter [1, 2] : HashSet Nat).is_subset (HashSet.from_iter [2, 1])
           && (HashSet.from_iter [2, 1] : HashSet Nat).is_subset (HashSet.from_iter [1, 2]))) :=
  ⟨(guarded_eq_correct (HashSet.from_iter [1, 2]) (HashSet.from_iter [3])
      (by unfold HashSet.wf FlurryMap.wf HashSet.from_iter; decide)
      (by unfold HashSet.wf FlurryMap.wf HashSet.from_iter; decide)).1 (by decide),
   (guarded_eq_correct (HashSet.from_iter [1, 2]) (HashSet.from_iter [2, 1])
      (by unfold HashSet.wf FlurryMap.wf HashSet.from_iter; decide)
      (by unfold HashSet.wf FlurryMap.wf HashSet.from_iter; decide)).2⟩

theorem find?_single_or [BEq T] (x q : T) (rest : List T) :
    ((if (x == q) = true then some x else none).or
        (rest.find? (fun v => (v == q))))
      = (x :: rest).find? (fun v => (v == q)) := by
  cases hbq : (x == q) with
  | true =>
    rw [if_pos rfl, @List.find?_cons_of_pos T (fun v => (v == q)) x rest hbq]
    rfl
  | false =>
    rw [if_neg Bool.false_ne_true,
      @List.find?_cons_of_neg T (fun v => (v == q)) x rest
        (by show ¬(x == q) = true; rw [hbq]; exact Bool.false_ne_true),
      Option.none_or]

theorem get_insert [BEq T] [EqvLaws T] (s : HashSet T) (x q : T) :
    (s.insert x).1.get q =
      (s.get q).or (if (x == q) = true then some x else none) := by
  cases hc : s.contains x with
  | true =>
    rw [insert_eq, hc, if_pos rfl]
    cases hq : s.get q with
    | some r => rfl
    | none =>
      cases hbq : (x == q) with
      | false => rfl
      | true =>
        exfalso
        obtain ⟨e, he, hbe⟩ := (contains_iff_exists s x).1 hc
        have heq : (e == q) = true := EqvLaws.trans _ _ _ hbe hbq
        have hcq : s.contains q = true := (contains_iff_exists s q).2 ⟨e, he, heq⟩
        have hfind : s.map.entries.find? (fun e2 => e2.1 == q) = none := by
          unfold HashSet.get FlurryMap.get_key_value at hq
          exact Option.map_eq_none'.1 hq
        rw [contains_eq_isSome, hfind] at hcq
        exact Bool.false_ne_true hcq
  | false =>
    rw [insert_eq, hc, if_neg Bool.false_ne_true]
    show ((s.map.entries ++ [(x, ())]).find? (fun e => e.1 == q)).map Prod.fst = _
    rw [List.find?_append]
    cases hq : s.map.entries.find? (fun e => e.1 == q) with
    | some e =>
      have hsome : s.get q = some e.1 := by
        unfold HashSet.get FlurryMap.get_key_value
        rw [hq]
        rfl
      rw [hsome]
      rfl
    | none =>
      have hnone : s.get q = none := by
        unfold HashSet.get FlurryMap.get_key_value
        rw [hq]
        rfl
      rw [hnone, Option.none_or, Option.none_or]
      cases hbq : (x == q) with
      | true =>
        rw [if_pos rfl,
          @List.find?_cons_of_pos (T × Unit) (fun e => (e.1 == q)) (x, ())
            ([] : List (T × Unit)) hbq]
        rfl
      | false =>
        rw [if_neg Bool.false_ne_true,
          @List.find?_cons_of_neg (T × Unit) (fun e => (e.1 == q)) (x, ())
            ([] : List (T × Unit))
            (by show ¬(x == q) = true; rw [hbq]; exact Bool.false_ne_true)]
        rfl

theorem get_insertAll [BEq T] [EqvLaws T] :
    ∀ (l : List T) (s : HashSet T) (q : T),
    (HashSet.insertAll s l).get q = (s.get q).or (l.find? (fun v => (v == q))) := by
  intro l
  induction l with
  | nil =>
    intro s q
    show s.get q = (s.get q).or none
    cases s.get q <;> rfl
  | cons x rest ih =>
    intro s q
    have h1 : HashSet.insertAll s (x :: rest) = HashSet.insertAll (s.insert x).1 rest := rfl
    rw [h1, ih, get_insert, Option.or_assoc, find?_single_or]

theorem foldl_insert_mk [BEq T] :
    ∀ (l : List T) (m : FlurryMap T Unit),
    HashSet.mk (l.foldl (fun m2 v => (m2.insert v ()).1) m)
      = l.foldl (fun s v => (s.insert v).1) (HashSet.mk m) := by
  intro l
  induction l with
  | nil => intro m; rfl
  | cons x rest ih => intro m; exact ih ((m.insert x ()).1)

/-- C9: building a set from a sequence (FromIterator) and extending a set
with a sequence (Extend) both equal repeated insert calls for the items of
the sequence in order; and with duplicate equal elements the first
occurrence is the stored one: lookup in the built set returns exactly the
first element of the sequence equal to the query. -/
theorem bulk_build_equiv [BEq T] [EqvLaws T] (l : List T) (s : HashSet T) (q : T) :
    (HashSet.from_iter l = HashSet.insertAll HashSet.new l)
    ∧ (s.extend l = HashSet.insertAll s l)
    ∧ ((HashSet.from_iter l : HashSet T).get q = l.find? (fun v => (v == q))) := by
  have hext : ∀ s2 : HashSet T, s2.extend l = HashSet.insertAll s2 l := by
    intro s2
    unfold HashSet.extend FlurryMap.extendWith HashSet.insertAll
    rw [List.foldl_map]
    exact foldl_insert_mk l s2.map
  have hfi : HashSet.from_iter l = HashSet.insertAll HashSet.new l := by
    have h0 : HashSet.from_iter l = HashSet.extend HashSet.new l := rfl
    rw [h0, hext]
  refine ⟨hfi, hext s, ?_⟩
  rw [hfi, get_insertAll]
  rfl

/-- Tagged pairs a key, which alone decides equality, with a tag that keeps
equal values apart, like two Rust values equal under Ord yet observably
different. -/
structure Tagged where
  key : Nat
  tag : Nat

instance : BEq Tagged where
  beq a b := a.key == b.key

instance : EqvLaws Tagged where
  refl a := beq_self_eq_true a.key
  symm a b h := by
    have hk : a.key = b.key := beq_iff_eq.1 h
    show (b.key == a.key) = true
    rw [hk]
    exact beq_self_eq_true b.key
  trans a b c h1 h2 := by
    have e1 : a.key = b.key := beq_iff_eq.1 h1
    have e2 : b.key = c.key := beq_iff_eq.1 h2
    show (a.key == c.key) = true
    rw [e1, e2]
    exact beq_self_eq_true c.key

/-- Witness for C9 at a concrete input: a sequence holding two elements that
are equal under the order but carry different tags; the first occurrence is
the stored one, returned by a lookup with a third equal value. -/
theorem bulk_build_equiv_witness :
    (HashSet.from_iter [Tagged.mk 1 10, Tagged.mk 1 20] : HashSet Tagged).get
        (Tagged.mk 1 99) = some (Tagged.mk 1 10) := by
  rw [(bulk_build_equiv [Tagged.mk 1 10, Tagged.mk 1 20] HashSet.new
    (Tagged.mk 1 99)).2.2]
  rfl

end Flurry
